import Mathlib

/-!
Shallow embedding of `src/utils/anomaly_detector.py` (class `AnomalyDetector`)
from the Meme-Stock-Sentiment-Tracker repository, together with proofs of the
behavioural properties of its five operations.

Modelling conventions:
* A `datetime` timestamp is modelled as the number of microseconds since the
  `datetime` epoch (midnight of year 1), a natural number.  The epoch is
  minute-aligned, so the calendar fields used by the code are recovered as
  `minute = ts / usecPerMinute % 60`, and `replace(second=0, microsecond=0)`
  is truncation to a multiple of `usecPerMinute`.
* `timestamp - timedelta(hours=h)` appears only as the right-hand side of
  `ts >= cutoff` comparisons; since every timestamp is nonnegative, truncated
  natural subtraction yields exactly the same keep/prune decisions as the
  integer-valued cutoff.
* `self.mention_history` is a `defaultdict(list)`; it is modelled as an
  association list from ticker to history together with `ddAccess`, which
  reproduces defaultdict subscript semantics: reading a missing key inserts an
  empty history.  Methods that may touch the dict are given in state-passing
  style (suffix `S`), returning their result together with the detector state
  after the call, so that absence of side effects is a theorem, not a
  modelling artefact.
* `datetime.utcnow()` (used by `get_mention_counts`) is passed explicitly as a
  `now` parameter.
* Python floats are modelled exactly: means and variances in `ℚ`,
  `np.std`'s square root in `ℝ`.
-/

/-- Microseconds in one minute. -/
def usecPerMinute : ℕ := 60000000

/-- Microseconds in one hour (`timedelta(hours=1)`). -/
def usecPerHour : ℕ := 3600000000

/-- A per-ticker history: the list of `(timestamp, count)` tuples stored in
`self.mention_history[ticker]`; `add_mention` only ever appends count `1`. -/
abbrev History := List (ℕ × ℕ)

/-- The `mention_history` mapping, as an association list ticker ↦ history. -/
abbrev HistMap := List (String × History)

/-- Membership test `ticker in self.mention_history` (dict key membership). -/
def hasKey : HistMap → String → Bool
  | [], _ => false
  | p :: rest, t => if p.1 = t then true else hasKey rest t

/-- The value stored under a key (`[]` when the key is absent); used to state
properties about a ticker's retained history. -/
def getEntry : HistMap → String → History
  | [], _ => []
  | p :: rest, t => if p.1 = t then p.2 else getEntry rest t

/-- Dict assignment `self.mention_history[ticker] = v`: replace the entry in
place when the key exists, append it otherwise. -/
def setEntry : HistMap → String → History → HistMap
  | [], t, v => [(t, v)]
  | p :: rest, t, v => if p.1 = t then (t, v) :: rest else p :: setEntry rest t v

/-- `defaultdict` subscript read `self.mention_history[ticker]`: returns the
stored history, inserting an empty one first when the key is missing.  The
second component is the mapping after the access. -/
def ddAccess (h : HistMap) (t : String) : History × HistMap :=
  if hasKey h t then (getEntry h t, h) else ([], h ++ [(t, [])])

/-- The detector's state and configuration (`AnomalyDetector.__init__`).
`z_threshold` is a Python float and hence an exact rational. -/
structure AnomalyDetector where
  z_threshold : ℚ
  window_hours : ℕ
  mention_history : HistMap

/-- Embedding of `AnomalyDetector.add_mention(ticker, timestamp)`: append
`(timestamp, 1)` through the defaultdict, then reassign the ticker's history
to the entries with `ts >= timestamp - timedelta(hours=window_hours)`. -/
def add_mention (d : AnomalyDetector) (ticker : String) (timestamp : ℕ) : AnomalyDetector :=
  let r := ddAccess d.mention_history ticker
  let h1 := setEntry r.2 ticker (r.1 ++ [(timestamp, 1)])
  let cutoff := timestamp - d.window_hours * usecPerHour
  let r2 := ddAccess h1 ticker
  let h2 := setEntry r2.2 ticker (r2.1.filter (fun e => decide (cutoff ≤ e.1)))
  { d with mention_history := h2 }

/-- The window key of lines 73–76: zero out seconds and microseconds, then
replace the minute by `minute // window_minutes * window_minutes`. -/
def windowKey (window_minutes : ℕ) (ts : ℕ) : ℕ :=
  let t1 := ts / usecPerMinute * usecPerMinute
  let hourBase := t1 / usecPerHour * usecPerHour
  let m := t1 / usecPerMinute % 60
  hourBase + m / window_minutes * window_minutes * usecPerMinute

/-- One iteration of the `window_counts[window_key] += 1` loop on the backing
association list of the `defaultdict(int)` (key order is first-occurrence
order, as in a Python dict). -/
def bumpKey : List (ℕ × ℕ) → ℕ → List (ℕ × ℕ)
  | [], k => [(k, 1)]
  | p :: rest, k => if p.1 = k then (p.1, p.2 + 1) :: rest else p :: bumpKey rest k

/-- The finished `window_counts` association list built from a list of keys. -/
def countsOf (keys : List ℕ) : List (ℕ × ℕ) :=
  keys.foldl bumpKey []

/-- The count stored for key `k` in a `window_counts` association list
(`0` when absent). -/
def valueAt : List (ℕ × ℕ) → ℕ → ℕ
  | [], _ => 0
  | p :: rest, k => if p.1 = k then p.2 else valueAt rest k

/-- Embedding of `AnomalyDetector.get_mention_counts(ticker, window_minutes)`
in state-passing style; `now` is `datetime.utcnow()`. -/
def get_mention_countsS (d : AnomalyDetector) (ticker : String) (now window_minutes : ℕ) :
    List ℕ × AnomalyDetector :=
  if hasKey d.mention_history ticker = false then ([], d)
  else
    let cutoff := now - d.window_hours * usecPerHour
    let r := ddAccess d.mention_history ticker
    let recent := (r.1.map Prod.fst).filter (fun ts => decide (cutoff ≤ ts))
    let d1 := { d with mention_history := r.2 }
    if recent = [] then ([], d1)
    else ((recent.foldl (fun acc ts => bumpKey acc (windowKey window_minutes ts)) []).map Prod.snd,
      d1)

/-- The value of `get_mention_counts` (its returned list). -/
def get_mention_counts (d : AnomalyDetector) (ticker : String) (now window_minutes : ℕ) :
    List ℕ :=
  (get_mention_countsS d ticker now window_minutes).1

/-- Embedding of `np.mean(counts)`: the arithmetic mean, an exact rational. -/
def npMean (counts : List ℕ) : ℚ :=
  (counts.map (Nat.cast : ℕ → ℚ)).sum / counts.length

/-- The population variance computed inside `np.std(counts)`: mean squared
deviation, dividing by `N` (not `N - 1`). -/
def npVar (counts : List ℕ) : ℚ :=
  (counts.map (fun x : ℕ => ((x : ℚ) - npMean counts) ^ 2)).sum / counts.length

/-- Embedding of `np.std(counts)`: square root of the population variance. -/
noncomputable def npStd (counts : List ℕ) : ℝ :=
  Real.sqrt ((npVar counts : ℚ) : ℝ)

/-- Embedding of `AnomalyDetector.calculate_z_score(ticker, current_count,
window_minutes)` in state-passing style. -/
noncomputable def calculate_z_scoreS (d : AnomalyDetector) (ticker : String)
    (current_count : ℤ) (now window_minutes : ℕ) : ℝ × AnomalyDetector :=
  let r := get_mention_countsS d ticker now window_minutes
  (if r.1.length < 2 then 0
   else if npStd r.1 = 0 then 0
   else ((current_count : ℝ) - ((npMean r.1 : ℚ) : ℝ)) / npStd r.1,
   r.2)

/-- The value of `calculate_z_score` (its returned float). -/
noncomputable def calculate_z_score (d : AnomalyDetector) (ticker : String)
    (current_count : ℤ) (now window_minutes : ℕ) : ℝ :=
  (calculate_z_scoreS d ticker current_count now window_minutes).1

/-- Embedding of `AnomalyDetector.is_anomaly(ticker, current_count,
window_minutes)` in state-passing style: the truth value of
`abs(z_score) >= self.z_threshold`. -/
noncomputable def is_anomalyS (d : AnomalyDetector) (ticker : String) (current_count : ℤ)
    (now window_minutes : ℕ) : Prop × AnomalyDetector :=
  let r := calculate_z_scoreS d ticker current_count now window_minutes
  (|r.1| ≥ (d.z_threshold : ℝ), r.2)

/-- The per-ticker record placed into the `anomalies` dict by
`detect_anomalies` (keys `ticker`, `mention_count`, `z_score`, `is_anomaly`,
`direction`). -/
structure AnomalyInfo where
  ticker : String
  mention_count : ℤ
  z_score : ℝ
  is_anomaly : Bool
  direction : String

/-- One iteration of the `detect_anomalies` loop body for the pair
`(ticker, count)`, threading the accumulated result dict and detector state. -/
noncomputable def detectStep (now window_minutes : ℕ)
    (acc : List (String × AnomalyInfo) × AnomalyDetector) (p : String × ℤ) :
    List (String × AnomalyInfo) × AnomalyDetector :=
  let r := calculate_z_scoreS acc.2 p.1 p.2 now window_minutes
  if |r.1| ≥ (acc.2.z_threshold : ℝ) then
    (acc.1 ++ [(p.1, ⟨p.1, p.2, r.1, true, if 0 < r.1 then "surge" else "drop"⟩)], r.2)
  else (acc.1, r.2)

/-- Embedding of `AnomalyDetector.detect_anomalies(ticker_counts,
window_minutes)` in state-passing style; `ticker_counts` is the dict's items
in iteration order, and the returned list is the `anomalies` dict's items. -/
noncomputable def detect_anomaliesS (d : AnomalyDetector)
    (ticker_counts : List (String × ℤ)) (now window_minutes : ℕ) :
    List (String × AnomalyInfo) × AnomalyDetector :=
  ticker_counts.foldl (detectStep now window_minutes) ([], d)

/-- Run a finite sequence of `add_mention(ticker, timestamp)` calls. -/
def applyCalls (d : AnomalyDetector) (calls : List (String × ℕ)) : AnomalyDetector :=
  calls.foldl (fun s p => add_mention s p.1 p.2) d

/-- The timestamps of a ticker's retained entries that survive the wall-clock
filter of `get_mention_counts` (lines 62–65). -/
def survivors (d : AnomalyDetector) (ticker : String) (now : ℕ) : List ℕ :=
  ((getEntry d.mention_history ticker).map Prod.fst).filter
    (fun ts => decide (now - d.window_hours * usecPerHour ≤ ts))

/-! ### Association-list lemmas for the `mention_history` dict -/

lemma getEntry_setEntry_self (h : HistMap) (t : String) (v : History) :
    getEntry (setEntry h t v) t = v := by
  induction h with
  | nil => simp [setEntry, getEntry]
  | cons p rest ih =>
    by_cases hp : p.1 = t
    · simp [setEntry, hp, getEntry]
    · simp [setEntry, hp, getEntry, ih]

lemma getEntry_setEntry_ne (h : HistMap) (s t : String) (v : History) (hst : s ≠ t) :
    getEntry (setEntry h s v) t = getEntry h t := by
  induction h with
  | nil => simp [setEntry, getEntry, hst]
  | cons p rest ih =>
    by_cases hp : p.1 = s
    · simp [setEntry, hp, getEntry, hst]
    · simp [setEntry, hp, getEntry, ih]

lemma getEntry_append_single_ne (h : HistMap) (s t : String) (v : History) (hst : s ≠ t) :
    getEntry (h ++ [(s, v)]) t = getEntry h t := by
  induction h with
  | nil => simp [getEntry, hst]
  | cons p rest ih =>
    by_cases hp : p.1 = t
    · simp [getEntry, hp]
    · simp [getEntry, hp, ih]

lemma getEntry_ddAccess_snd_ne (h : HistMap) (s t : String) (hst : s ≠ t) :
    getEntry (ddAccess h s).2 t = getEntry h t := by
  unfold ddAccess
  by_cases hk : hasKey h s
  · simp [hk]
  · simp [hk, getEntry_append_single_ne h s t [] hst]

lemma add_mention_getEntry_ne (d : AnomalyDetector) (s t : String) (ts : ℕ) (hst : s ≠ t) :
    getEntry (add_mention d s ts).mention_history t = getEntry d.mention_history t := by
  unfold add_mention
  simp only
  rw [getEntry_setEntry_ne _ _ _ _ hst, getEntry_ddAccess_snd_ne _ _ _ hst,
    getEntry_setEntry_ne _ _ _ _ hst, getEntry_ddAccess_snd_ne _ _ _ hst]

lemma add_mention_window_hours (d : AnomalyDetector) (s : String) (ts : ℕ) :
    (add_mention d s ts).window_hours = d.window_hours := rfl

lemma add_mention_z_threshold (d : AnomalyDetector) (s : String) (ts : ℕ) :
    (add_mention d s ts).z_threshold = d.z_threshold := rfl

lemma mem_add_mention_getEntry_self (d : AnomalyDetector) (t : String) (ts : ℕ)
    (e : ℕ × ℕ) (he : e ∈ getEntry (add_mention d t ts).mention_history t) :
    ts - d.window_hours * usecPerHour ≤ e.1 := by
  unfold add_mention at he
  simp only at he
  rw [getEntry_setEntry_self] at he
  rcases List.mem_filter.mp he with ⟨-, hdec⟩
  exact of_decide_eq_true hdec

/-! ### State preservation of the read operations -/

lemma get_mention_countsS_snd (d : AnomalyDetector) (t : String) (now w : ℕ) :
    (get_mention_countsS d t now w).2 = d := by
  unfold get_mention_countsS ddAccess
  by_cases hk : hasKey d.mention_history t
  · simp only [hk, Bool.true_eq_false, if_false]
    split
    · split <;> rfl
    · exact absurd trivial (by assumption)
  · simp [hk]

lemma calculate_z_scoreS_snd (d : AnomalyDetector) (t : String) (c : ℤ) (now w : ℕ) :
    (calculate_z_scoreS d t c now w).2 = d := by
  unfold calculate_z_scoreS
  exact get_mention_countsS_snd d t now w

lemma is_anomalyS_snd (d : AnomalyDetector) (t : String) (c : ℤ) (now w : ℕ) :
    (is_anomalyS d t c now w).2 = d := by
  unfold is_anomalyS
  exact calculate_z_scoreS_snd d t c now w

lemma detectStep_snd (now w : ℕ) (acc : List (String × AnomalyInfo) × AnomalyDetector)
    (p : String × ℤ) : (detectStep now w acc p).2 = acc.2 := by
  unfold detectStep
  by_cases hz : |(calculate_z_scoreS acc.2 p.1 p.2 now w).1| ≥ ((acc.2.z_threshold : ℚ) : ℝ)
  · simp [hz, calculate_z_scoreS_snd]
  · simp [hz, calculate_z_scoreS_snd]

lemma foldl_detectStep_snd (now w : ℕ) (tc : List (String × ℤ))
    (acc : List (String × AnomalyInfo) × AnomalyDetector) :
    (tc.foldl (detectStep now w) acc).2 = acc.2 := by
  induction tc generalizing acc with
  | nil => rfl
  | cons p rest ih => rw [List.foldl_cons, ih, detectStep_snd]

lemma detect_anomaliesS_snd (d : AnomalyDetector) (tc : List (String × ℤ)) (now w : ℕ) :
    (detect_anomaliesS d tc now w).2 = d := by
  unfold detect_anomaliesS
  exact foldl_detectStep_snd now w tc ([], d)

/-! ### History of a ticker across sequences of `add_mention` calls -/

lemma applyCalls_getEntry_of_not_called (d : AnomalyDetector) (calls : List (String × ℕ))
    (t : String) (h : ∀ p ∈ calls, p.1 ≠ t) :
    getEntry (applyCalls d calls).mention_history t = getEntry d.mention_history t := by
  induction calls generalizing d with
  | nil => rfl
  | cons p rest ih =>
    have hstep : getEntry (add_mention d p.1 p.2).mention_history t
        = getEntry d.mention_history t :=
      add_mention_getEntry_ne d p.1 t p.2 (h p (List.mem_cons_self p rest))
    calc getEntry (applyCalls d (p :: rest)).mention_history t
        = getEntry (applyCalls (add_mention d p.1 p.2) rest).mention_history t := rfl
      _ = getEntry (add_mention d p.1 p.2).mention_history t :=
          ih (add_mention d p.1 p.2) (fun q hq => h q (List.mem_cons_of_mem p hq))
      _ = getEntry d.mention_history t := hstep

lemma applyCalls_window_hours (d : AnomalyDetector) (calls : List (String × ℕ)) :
    (applyCalls d calls).window_hours = d.window_hours := by
  induction calls generalizing d with
  | nil => rfl
  | cons p rest ih => exact (ih (add_mention d p.1 p.2)).trans rfl

/-! ### Unfolding lemmas for the Z-score computation -/

lemma calculate_z_score_eq (d : AnomalyDetector) (t : String) (c : ℤ) (now w : ℕ) :
    calculate_z_score d t c now w =
      if (get_mention_counts d t now w).length < 2 then 0
      else if npStd (get_mention_counts d t now w) = 0 then 0
      else ((c : ℝ) - ((npMean (get_mention_counts d t now w) : ℚ) : ℝ))
        / npStd (get_mention_counts d t now w) := rfl

lemma npMean_of_all_eq (l : List ℕ) (k : ℕ) (hne : l ≠ []) (h : ∀ x ∈ l, x = k) :
    npMean l = (k : ℚ) := by
  have h1 : ∀ y ∈ l.map (Nat.cast : ℕ → ℚ), y = (k : ℚ) := by
    intro y hy
    obtain ⟨x, hx, hxy⟩ := List.mem_map.mp hy
    rw [← hxy]
    exact_mod_cast h x hx
  have hsum := List.sum_eq_card_nsmul (l.map (Nat.cast : ℕ → ℚ)) ((k : ℚ)) h1
  rw [List.length_map] at hsum
  have hlen : (l.length : ℚ) ≠ 0 := by
    exact_mod_cast Nat.cast_ne_zero.mpr (List.length_pos.mpr hne).ne'
  rw [npMean, hsum, nsmul_eq_mul, mul_comm, mul_div_assoc, div_self hlen, mul_one]

lemma npVar_of_all_eq (l : List ℕ) (k : ℕ) (hne : l ≠ []) (h : ∀ x ∈ l, x = k) :
    npVar l = 0 := by
  have hz : (l.map (fun x : ℕ => ((x : ℚ) - npMean l) ^ 2)).sum = 0 := by
    refine List.sum_eq_zero fun q hq => ?_
    obtain ⟨y, hy, hyq⟩ := List.mem_map.mp hq
    rw [← hyq, h y hy, npMean_of_all_eq l k hne h]
    ring
  rw [npVar, hz, zero_div]

lemma npStd_of_all_eq (l : List ℕ) (k : ℕ) (hne : l ≠ []) (h : ∀ x ∈ l, x = k) :
    npStd l = 0 := by
  rw [npStd, npVar_of_all_eq l k hne h]
  simp

/-! ### The windowed-count association list built by `get_mention_counts` -/

lemma valueAt_bumpKey (l : List (ℕ × ℕ)) (x k : ℕ) :
    valueAt (bumpKey l x) k = valueAt l k + if x = k then 1 else 0 := by
  induction l with
  | nil => by_cases hxk : x = k <;> simp [bumpKey, valueAt, hxk]
  | cons p rest ih =>
    by_cases hpx : p.1 = x
    · by_cases hxk : x = k
      · subst hxk
        simp [bumpKey, hpx, valueAt]
      · have hpk : p.1 ≠ k := fun hh => hxk (hpx.symm.trans hh)
        simp [bumpKey, hpx, valueAt, hpk, hxk]
    · by_cases hpk : p.1 = k
      · have hxk : x ≠ k := fun hh => hpx (hpk.trans hh.symm)
        simp [bumpKey, hpx, valueAt, hpk, hxk, Ne.symm hxk]
      · simp [bumpKey, hpx, valueAt, hpk, ih]

lemma keys_bumpKey (l : List (ℕ × ℕ)) (x : ℕ) :
    (bumpKey l x).map Prod.fst =
      if x ∈ l.map Prod.fst then l.map Prod.fst else l.map Prod.fst ++ [x] := by
  induction l with
  | nil => simp [bumpKey]
  | cons p rest ih =>
    by_cases hpx : p.1 = x
    · simp [bumpKey, hpx]
    · by_cases hx : x ∈ rest.map Prod.fst
      · simp [bumpKey, hpx, ih, hx, Ne.symm hpx]
      · simp [bumpKey, hpx, ih, hx, Ne.symm hpx]

lemma mem_keys_bumpKey (l : List (ℕ × ℕ)) (x k : ℕ) :
    k ∈ (bumpKey l x).map Prod.fst ↔ k ∈ l.map Prod.fst ∨ k = x := by
  rw [keys_bumpKey]
  by_cases hx : x ∈ l.map Prod.fst
  · simp only [hx, if_true]
    constructor
    · exact Or.inl
    · rintro (hk | rfl)
      · exact hk
      · exact hx
  · simp [hx]

lemma nodup_keys_bumpKey (l : List (ℕ × ℕ)) (x : ℕ) (h : (l.map Prod.fst).Nodup) :
    ((bumpKey l x).map Prod.fst).Nodup := by
  rw [keys_bumpKey]
  by_cases hx : x ∈ l.map Prod.fst
  · simpa [hx] using h
  · simp [hx, List.nodup_append, h]

lemma valueAt_foldl_bumpKey (xs : List ℕ) (l : List (ℕ × ℕ)) (k : ℕ) :
    valueAt (xs.foldl bumpKey l) k = valueAt l k + xs.count k := by
  induction xs generalizing l with
  | nil => simp
  | cons x rest ih =>
    rw [List.foldl_cons, ih, valueAt_bumpKey]
    have hc : (x :: rest).count k = rest.count k + if x = k then 1 else 0 := by
      by_cases hxk : x = k <;> simp [List.count_cons, hxk]
    rw [hc]
    by_cases hxk : x = k
    · simp only [hxk, if_pos rfl]
      omega
    · simp only [if_neg hxk]
      omega

lemma mem_keys_foldl_bumpKey (xs : List ℕ) (l : List (ℕ × ℕ)) (k : ℕ) :
    k ∈ (xs.foldl bumpKey l).map Prod.fst ↔ k ∈ l.map Prod.fst ∨ k ∈ xs := by
  induction xs generalizing l with
  | nil => simp
  | cons x rest ih =>
    rw [List.foldl_cons, ih, mem_keys_bumpKey]
    constructor
    · rintro ((hk | rfl) | hk)
      · exact Or.inl hk
      · exact Or.inr (List.mem_cons_self _ _)
      · exact Or.inr (List.mem_cons_of_mem _ hk)
    · rintro (hk | hk)
      · exact Or.inl (Or.inl hk)
      · rcases List.mem_cons.mp hk with rfl | hk
        · exact Or.inl (Or.inr rfl)
        · exact Or.inr hk

lemma nodup_keys_foldl_bumpKey (xs : List ℕ) (l : List (ℕ × ℕ))
    (h : (l.map Prod.fst).Nodup) : ((xs.foldl bumpKey l).map Prod.fst).Nodup := by
  induction xs generalizing l with
  | nil => exact h
  | cons x rest ih => exact ih (bumpKey l x) (nodup_keys_bumpKey l x h)

lemma values_eq_keys_map_valueAt (l : List (ℕ × ℕ)) (h : (l.map Prod.fst).Nodup) :
    (l.map Prod.snd : Multiset ℕ) = (l.map Prod.fst : Multiset ℕ).map (valueAt l) := by
  induction l with
  | nil => simp
  | cons p rest ih =>
    have h' : p.1 ∉ rest.map Prod.fst ∧ (rest.map Prod.fst).Nodup := by
      rw [List.map_cons, List.nodup_cons] at h
      exact h
    rcases h' with ⟨hnotin, hrest⟩
    have hmap : ((rest.map Prod.fst : List ℕ) : Multiset ℕ).map (valueAt (p :: rest))
        = ((rest.map Prod.fst : List ℕ) : Multiset ℕ).map (valueAt rest) := by
      apply Multiset.map_congr rfl
      intro k hk
      have hk' : k ∈ rest.map Prod.fst := by simpa using hk
      have hne : p.1 ≠ k := fun he => hnotin (he ▸ hk')
      simp [valueAt, hne]
    have hself : valueAt (p :: rest) p.1 = p.2 := by simp [valueAt]
    simp only [List.map_cons, ← Multiset.cons_coe, Multiset.map_cons, hself, hmap,
      ih hrest]

/-! ### Canonical forms of `get_mention_counts` -/

lemma ddAccess_of_hasKey (h : HistMap) (t : String) (hk : hasKey h t = true) :
    ddAccess h t = (getEntry h t, h) := by
  unfold ddAccess
  rw [hk]
  exact if_pos rfl

lemma getEntry_eq_nil_of_not_hasKey (h : HistMap) (t : String) (hk : hasKey h t = false) :
    getEntry h t = [] := by
  induction h with
  | nil => rfl
  | cons p rest ih =>
    by_cases hp : p.1 = t
    · simp [hasKey, hp] at hk
    · simp only [hasKey, hp, if_false] at hk
      simp [getEntry, hp, ih hk]

lemma get_mention_countsS_eq_of_hasKey (d : AnomalyDetector) (t : String) (now w : ℕ)
    (hk : hasKey d.mention_history t = true) :
    get_mention_countsS d t now w =
      if survivors d t now = [] then ([], d)
      else ((countsOf ((survivors d t now).map (windowKey w))).map Prod.snd, d) := by
  unfold get_mention_countsS
  rw [hk, if_neg (by simp : ¬(true = false)), ddAccess_of_hasKey _ _ hk, countsOf,
    List.foldl_map]
  rfl

lemma get_mention_countsS_eq_of_not_hasKey (d : AnomalyDetector) (t : String) (now w : ℕ)
    (hk : hasKey d.mention_history t = false) :
    get_mention_countsS d t now w = ([], d) := by
  unfold get_mention_countsS
  rw [hk]
  exact if_pos rfl

lemma get_mention_counts_canonical (d : AnomalyDetector) (t : String) (now w : ℕ)
    (hk : hasKey d.mention_history t = true) :
    get_mention_counts d t now w =
      if survivors d t now = [] then []
      else (countsOf ((survivors d t now).map (windowKey w))).map Prod.snd := by
  unfold get_mention_counts
  rw [get_mention_countsS_eq_of_hasKey d t now w hk]
  by_cases hs : survivors d t now = []
  · rw [if_pos hs, if_pos hs]
  · rw [if_neg hs, if_neg hs]

/-- Claim C8: for every ticker and window size, the list returned by
`get_mention_counts` equals, as a multiset, the sizes of the groups obtained
by bucketing each surviving timestamp under `windowKey` (seconds and
microseconds zeroed, minute floored to a multiple of `window_minutes`): the
multiset of, for each distinct bucket key, the number of surviving timestamps
mapping to that key. -/
theorem spec_C8_bucketing (d : AnomalyDetector) (t : String) (now w : ℕ) :
    (get_mention_counts d t now w : Multiset ℕ)
      = (((survivors d t now).map (windowKey w)).toFinset.val).map
          (fun k => ((survivors d t now).map (windowKey w)).count k) := by
  by_cases hk : hasKey d.mention_history t
  · rw [get_mention_counts_canonical d t now w hk]
    by_cases hs : survivors d t now = []
    · rw [if_pos hs, hs]
      simp
    · rw [if_neg hs]
      have hnodup : ((countsOf ((survivors d t now).map (windowKey w))).map Prod.fst).Nodup :=
        nodup_keys_foldl_bumpKey _ [] (by simp)
      rw [values_eq_keys_map_valueAt _ hnodup]
      have hkeys : ((countsOf ((survivors d t now).map (windowKey w))).map Prod.fst
            : Multiset ℕ)
          = ((survivors d t now).map (windowKey w)).toFinset.val := by
        rw [Multiset.Nodup.ext (by exact_mod_cast hnodup)
          (((survivors d t now).map (windowKey w)).toFinset.nodup)]
        intro a
        rw [Multiset.mem_coe, Finset.mem_val, List.mem_toFinset]
        exact (mem_keys_foldl_bumpKey _ [] a).trans (by simp)
      rw [hkeys]
      refine Multiset.map_congr rfl fun k hkmem => ?_
      have := valueAt_foldl_bumpKey ((survivors d t now).map (windowKey w)) [] k
      simpa [countsOf, valueAt] using this
  · have hk' : hasKey d.mention_history t = false := by
      simpa using hk
    have h0 : get_mention_counts d t now w = [] := by
      unfold get_mention_counts
      rw [get_mention_countsS_eq_of_not_hasKey d t now w hk']
    have hsurv : survivors d t now = [] := by
      unfold survivors
      rw [getEntry_eq_nil_of_not_hasKey _ _ hk']
      rfl
    rw [h0, hsurv]
    simp

/-- Claim C5: pruning invariant.  After any finite sequence of `add_mention`
calls, every entry retained for a ticker has timestamp at least the timestamp
of the last `add_mention` for that ticker minus `window_hours`; the pruning
reference is the inserted event's timestamp, not wall-clock time. -/
theorem spec_C5_pruning_invariant (d : AnomalyDetector) (calls : List (String × ℕ))
    (t : String) (last : String × ℕ)
    (hl : (calls.filter (fun p => decide (p.1 = t))).getLast? = some last) :
    ∀ e ∈ getEntry (applyCalls d calls).mention_history t,
      (last.2 : ℤ) - ((d.window_hours * usecPerHour : ℕ) : ℤ) ≤ (e.1 : ℤ) := by
  induction calls generalizing d with
  | nil => simp at hl
  | cons c rest ih =>
    by_cases hct : c.1 = t
    · by_cases hrest : rest.filter (fun p => decide (p.1 = t)) = []
      · rw [List.filter_cons_of_pos (by simpa using hct), hrest] at hl
        have hlast : last = c := by simpa using hl.symm
        intro e he
        have hnone : ∀ p ∈ rest, p.1 ≠ t := by
          intro p hp
          have := List.filter_eq_nil_iff.mp hrest p hp
          simpa using this
        have heq : getEntry (applyCalls (add_mention d c.1 c.2) rest).mention_history t
            = getEntry (add_mention d c.1 c.2).mention_history t :=
          applyCalls_getEntry_of_not_called _ rest t hnone
        have he' : e ∈ getEntry (add_mention d c.1 c.2).mention_history t := by
          rw [← heq]
          exact he
        rw [hct] at he'
        have hmem := mem_add_mention_getEntry_self d t c.2 e he'
        rw [hlast]
        generalize hW : d.window_hours * usecPerHour = W at hmem ⊢
        omega
      · rw [List.filter_cons_of_pos (by simpa using hct)] at hl
        obtain ⟨b, L, hbL⟩ := List.exists_cons_of_ne_nil hrest
        rw [hbL, List.getLast?_cons_cons, ← hbL] at hl
        intro e he
        exact ih (add_mention d c.1 c.2) hl e he
    · rw [List.filter_cons_of_neg (by simpa using hct)] at hl
      intro e he
      exact ih (add_mention d c.1 c.2) hl e he

/-! ### The `detect_anomalies` loop -/

/-- The anomaly record built by `detect_anomalies` for a flagged
`(ticker, count)` pair. -/
noncomputable def mkInfo (d : AnomalyDetector) (t : String) (c : ℤ) (now w : ℕ) :
    AnomalyInfo :=
  ⟨t, c, calculate_z_score d t c now w, true,
    if 0 < calculate_z_score d t c now w then "surge" else "drop"⟩

lemma detectStep_eq (now w : ℕ) (res : List (String × AnomalyInfo)) (d : AnomalyDetector)
    (p : String × ℤ) :
    detectStep now w (res, d) p =
      (if |calculate_z_score d p.1 p.2 now w| ≥ (d.z_threshold : ℝ) then
          res ++ [(p.1, mkInfo d p.1 p.2 now w)]
        else res, d) := by
  unfold detectStep mkInfo calculate_z_score
  dsimp only
  rw [calculate_z_scoreS_snd]
  by_cases hcond : |(calculate_z_scoreS d p.1 p.2 now w).1| ≥ (d.z_threshold : ℝ)
  · rw [if_pos hcond, if_pos hcond]
  · rw [if_neg hcond, if_neg hcond]

lemma mem_foldl_detectStep (now w : ℕ) (tc : List (String × ℤ)) (d : AnomalyDetector)
    (res : List (String × AnomalyInfo)) (t : String) (info : AnomalyInfo)
    (hmem : (t, info) ∈ (tc.foldl (detectStep now w) (res, d)).1) :
    (t, info) ∈ res ∨
      ∃ c : ℤ, (t, c) ∈ tc ∧ info = mkInfo d t c now w ∧
        |calculate_z_score d t c now w| ≥ (d.z_threshold : ℝ) := by
  induction tc generalizing res with
  | nil => exact Or.inl hmem
  | cons p rest ih =>
    rw [List.foldl_cons, detectStep_eq] at hmem
    by_cases hcond : |calculate_z_score d p.1 p.2 now w| ≥ (d.z_threshold : ℝ)
    · rw [if_pos hcond] at hmem
      rcases ih _ hmem with hin | ⟨c, hc, h2, hge⟩
      · rcases List.mem_append.mp hin with hin' | hin'
        · exact Or.inl hin'
        · have hpair := List.mem_singleton.mp hin'
          have ht : t = p.1 := congrArg Prod.fst hpair
          have hi : info = mkInfo d p.1 p.2 now w := congrArg Prod.snd hpair
          refine Or.inr ⟨p.2, ?_, ?_, ?_⟩
          · rw [ht, Prod.mk.eta]
            exact List.mem_cons_self p rest
          · rw [ht]
            exact hi
          · rw [ht]
            exact hcond
      · exact Or.inr ⟨c, List.mem_cons_of_mem _ hc, h2, hge⟩
    · rw [if_neg hcond] at hmem
      rcases ih _ hmem with hin | ⟨c, hc, h2, hge⟩
      · exact Or.inl hin
      · exact Or.inr ⟨c, List.mem_cons_of_mem _ hc, h2, hge⟩

/-! ### The claims about `calculate_z_score`, `is_anomaly`, `detect_anomalies` -/

/-- Claim C1: whenever the bucket-count list has length at least 2 and
non-zero population standard deviation, `calculate_z_score` returns
`(current_count - mean) / std`, where `mean` is the arithmetic mean
(`sum / N`) and `std` the population standard deviation (square root of the
mean squared deviation, dividing by `N`, not `N - 1`) of the bucket
counts. -/
theorem spec_C1_population_z_formula (d : AnomalyDetector) (t : String) (c : ℤ) (now w : ℕ)
    (h2 : 2 ≤ (get_mention_counts d t now w).length)
    (hσ : npStd (get_mention_counts d t now w) ≠ 0) :
    calculate_z_score d t c now w
      = ((c : ℝ) - ((npMean (get_mention_counts d t now w) : ℚ) : ℝ))
          / npStd (get_mention_counts d t now w) ∧
    npMean (get_mention_counts d t now w)
      = ((get_mention_counts d t now w).map (Nat.cast : ℕ → ℚ)).sum
          / (get_mention_counts d t now w).length ∧
    npStd (get_mention_counts d t now w)
      = Real.sqrt (((((get_mention_counts d t now w).map
            (fun x : ℕ => ((x : ℚ) - npMean (get_mention_counts d t now w)) ^ 2)).sum
          / (get_mention_counts d t now w).length : ℚ) : ℝ)) := by
  refine ⟨?_, rfl, rfl⟩
  rw [calculate_z_score_eq, if_neg (not_lt.mpr h2), if_neg hσ]

/-- Claim C2: with fewer than 2 bucket counts, `calculate_z_score` returns
exactly `0.0`, regardless of `current_count`. -/
theorem spec_C2_insufficient_data (d : AnomalyDetector) (t : String) (c : ℤ) (now w : ℕ)
    (h : (get_mention_counts d t now w).length < 2) :
    calculate_z_score d t c now w = 0 := by
  rw [calculate_z_score_eq, if_pos h]

/-- Claim C3: when all bucket counts (at least two of them) equal the same
value `k`, the standard deviation is zero, the guarded division branch is
never reached, and `calculate_z_score` returns `0.0` for every
`current_count`. -/
theorem spec_C3_zero_variance (d : AnomalyDetector) (t : String) (c : ℤ) (now w : ℕ)
    (k : ℕ) (h2 : 2 ≤ (get_mention_counts d t now w).length)
    (hall : ∀ x ∈ get_mention_counts d t now w, x = k) :
    calculate_z_score d t c now w = 0 := by
  have hne : get_mention_counts d t now w ≠ [] := by
    intro h0
    rw [h0] at h2
    simp at h2
  rw [calculate_z_score_eq, if_neg (not_lt.mpr h2),
    if_pos (npStd_of_all_eq _ k hne hall)]

/-- Claim C4: `is_anomaly` holds exactly when the absolute Z-score meets or
exceeds `z_threshold`; the comparison is inclusive, so a Z-score whose
magnitude equals the threshold is flagged. -/
theorem spec_C4_threshold_inclusive (d : AnomalyDetector) (t : String) (c : ℤ)
    (now w : ℕ) :
    ((is_anomalyS d t c now w).1 ↔
      |calculate_z_score d t c now w| ≥ (d.z_threshold : ℝ)) ∧
    (|calculate_z_score d t c now w| = (d.z_threshold : ℝ) →
      (is_anomalyS d t c now w).1) :=
  ⟨Iff.rfl, fun h => h.ge⟩

/-- Claim C6: `detect_anomalies` is a filter: an entry for ticker `t` appears
in the result only if `t` is a key of `ticker_counts` with some count `c` and
the `is_anomaly` condition holds for `(t, c)`; no ticker with a false
`is_anomaly` is ever included. -/
theorem spec_C6_filtering (d : AnomalyDetector) (tc : List (String × ℤ)) (now w : ℕ)
    (t : String) (info : AnomalyInfo)
    (hmem : (t, info) ∈ (detect_anomaliesS d tc now w).1) :
    ∃ c : ℤ, (t, c) ∈ tc ∧ (is_anomalyS d t c now w).1 := by
  rcases mem_foldl_detectStep now w tc d [] t info hmem with hin | ⟨c, hc, _, hge⟩
  · simp at hin
  · exact ⟨c, hc, hge⟩

/-- Claim C7: every entry returned by `detect_anomalies` has direction
`"surge"` when its `z_score` is positive and `"drop"` when negative; a zero
`z_score` can only appear in an entry when `z_threshold ≤ 0`. -/
theorem spec_C7_direction_sign (d : AnomalyDetector) (tc : List (String × ℤ)) (now w : ℕ)
    (t : String) (info : AnomalyInfo)
    (hmem : (t, info) ∈ (detect_anomaliesS d tc now w).1) :
    (0 < info.z_score → info.direction = "surge") ∧
    (info.z_score < 0 → info.direction = "drop") ∧
    (info.z_score = 0 → (d.z_threshold : ℝ) ≤ 0) := by
  rcases mem_foldl_detectStep now w tc d [] t info hmem with hin | ⟨c, _, hinfo, hge⟩
  · simp at hin
  · subst hinfo
    refine ⟨fun hz => ?_, fun hz => ?_, fun hz => ?_⟩
    · simp only [mkInfo] at hz ⊢
      rw [if_pos hz]
    · simp only [mkInfo] at hz ⊢
      rw [if_neg (not_lt.mpr hz.le)]
    · simp only [mkInfo] at hz
      rw [hz] at hge
      simpa using hge

/-- Claim C9: `detect_anomalies`, `calculate_z_score` and
`get_mention_counts` have no side effects: the detector state (per-ticker
history and configuration) after each call equals the state before it. -/
theorem spec_C9_no_side_effects (d : AnomalyDetector) (tc : List (String × ℤ))
    (t : String) (c : ℤ) (now w : ℕ) :
    (detect_anomaliesS d tc now w).2 = d ∧
    (calculate_z_scoreS d t c now w).2 = d ∧
    (get_mention_countsS d t now w).2 = d :=
  ⟨detect_anomaliesS_snd d tc now w, calculate_z_scoreS_snd d t c now w,
    get_mention_countsS_snd d t now w⟩

/-- Claim C10: although `mention_history` is a defaultdict, the read
operations never create a history entry: `get_mention_counts` returns `[]`
for an unknown ticker (the membership test fires before any subscript
access), and the key set of `mention_history` is unchanged by
`get_mention_counts`, `calculate_z_score`, `is_anomaly` and
`detect_anomalies`. -/
theorem spec_C10_reads_do_not_create_keys (d : AnomalyDetector) (t : String) (c : ℤ)
    (tc : List (String × ℤ)) (now w : ℕ) :
    (hasKey d.mention_history t = false → (get_mention_countsS d t now w).1 = []) ∧
    (get_mention_countsS d t now w).2.mention_history.map Prod.fst
      = d.mention_history.map Prod.fst ∧
    (calculate_z_scoreS d t c now w).2.mention_history.map Prod.fst
      = d.mention_history.map Prod.fst ∧
    (is_anomalyS d t c now w).2.mention_history.map Prod.fst
      = d.mention_history.map Prod.fst ∧
    (detect_anomaliesS d tc now w).2.mention_history.map Prod.fst
      = d.mention_history.map Prod.fst := by
  refine ⟨fun hk => ?_, by rw [get_mention_countsS_snd],
    by rw [calculate_z_scoreS_snd], by rw [is_anomalyS_snd],
    by rw [detect_anomaliesS_snd]⟩
  rw [get_mention_countsS_eq_of_not_hasKey d t now w hk]

/-! ### Concrete detectors and evaluations used by the witnesses -/

/-- A detector with one mention of `"GME"` in the epoch hour and three in the
following hour: with 60-minute windows and `now` two hours past the epoch its
bucket counts are `[1, 3]` (mean 2, population std 1). -/
def exDetector : AnomalyDetector :=
  { z_threshold := 5/2
    window_hours := 24
    mention_history :=
      [("GME", [(0, 1), (3600000000, 1), (3600000001, 1), (3600000002, 1)])] }

/-- A concrete wall-clock instant: two hours past the epoch. -/
def exNow : ℕ := 7200000000

lemma exThreshold : exDetector.z_threshold = 5/2 := rfl

lemma exCountsS : get_mention_countsS exDetector "GME" exNow 60 = ([1, 3], exDetector) :=
  rfl

lemma exCounts : get_mention_counts exDetector "GME" exNow 60 = [1, 3] := by
  unfold get_mention_counts
  rw [exCountsS]

lemma exMean : npMean [1, 3] = 2 := by
  norm_num [npMean]

lemma exVar : npVar [1, 3] = 1 := by
  norm_num [npVar, exMean]

lemma exStd : npStd [1, 3] = 1 := by
  rw [npStd, exVar]
  simp

lemma exZ : calculate_z_score exDetector "GME" 20 exNow 60 = 18 := by
  unfold calculate_z_score calculate_z_scoreS
  rw [exCountsS]
  dsimp only
  rw [if_neg (by norm_num), if_neg (by rw [exStd]; norm_num), exStd, exMean]
  norm_num

lemma exDetect : (detect_anomaliesS exDetector [("GME", 20)] exNow 60).1
    = [("GME", mkInfo exDetector "GME" 20 exNow 60)] := by
  unfold detect_anomaliesS
  rw [List.foldl_cons, List.foldl_nil, detectStep_eq]
  dsimp only
  have hcond : |calculate_z_score exDetector "GME" 20 exNow 60|
      ≥ (exDetector.z_threshold : ℝ) := by
    rw [exZ, exThreshold, abs_of_pos (by norm_num : (0:ℝ) < 18)]
    norm_num
  rw [if_pos hcond]
  rfl

/-- A detector whose `"AMC"` bucket counts are the constant list `[1, 1]`. -/
def exDetector3 : AnomalyDetector :=
  { z_threshold := 5/2
    window_hours := 24
    mention_history := [("AMC", [(0, 1), (3600000000, 1)])] }

lemma exCounts3 : get_mention_counts exDetector3 "AMC" exNow 60 = [1, 1] := rfl

/-- A freshly constructed detector (empty history). -/
def d0 : AnomalyDetector :=
  { z_threshold := 5/2, window_hours := 24, mention_history := [] }

/-- Two `add_mention` calls for `"XXX"`, the second 25 hours after the
first (scenario D of the spec). -/
def exCalls : List (String × ℕ) := [("XXX", 0), ("XXX", 90000000000000)]

/-! ### Witnesses -/

/-- Witness for C1 at the concrete detector: buckets `[1, 3]`, mean 2,
std 1, so the Z-score of count 20 is `(20 - 2) / 1`. -/
theorem spec_C1_witness :
    2 ≤ (get_mention_counts exDetector "GME" exNow 60).length ∧
    npStd (get_mention_counts exDetector "GME" exNow 60) ≠ 0 ∧
    calculate_z_score exDetector "GME" 20 exNow 60
      = (((20 : ℤ) : ℝ) - ((npMean (get_mention_counts exDetector "GME" exNow 60) : ℚ) : ℝ))
          / npStd (get_mention_counts exDetector "GME" exNow 60) := by
  have h2 : 2 ≤ (get_mention_counts exDetector "GME" exNow 60).length := by
    rw [exCounts]
    norm_num
  have hσ : npStd (get_mention_counts exDetector "GME" exNow 60) ≠ 0 := by
    rw [exCounts, exStd]
    norm_num
  exact ⟨h2, hσ, (spec_C1_population_z_formula exDetector "GME" 20 exNow 60 h2 hσ).1⟩

/-- Witness for C2: a ticker with no history has an empty bucket list, and
its Z-score is `0.0` even for count 5. -/
theorem spec_C2_witness :
    (get_mention_counts exDetector "NEW" exNow 60).length < 2 ∧
    calculate_z_score exDetector "NEW" 5 exNow 60 = 0 := by
  have h : (get_mention_counts exDetector "NEW" exNow 60).length < 2 := by
    have h0 : get_mention_counts exDetector "NEW" exNow 60 = [] := rfl
    rw [h0]
    norm_num
  exact ⟨h, spec_C2_insufficient_data exDetector "NEW" 5 exNow 60 h⟩

/-- Witness for C3: with the constant bucket counts `[1, 1]` the Z-score of
count 999 is `0.0`. -/
theorem spec_C3_witness :
    2 ≤ (get_mention_counts exDetector3 "AMC" exNow 60).length ∧
    (∀ x ∈ get_mention_counts exDetector3 "AMC" exNow 60, x = 1) ∧
    calculate_z_score exDetector3 "AMC" 999 exNow 60 = 0 := by
  have h2 : 2 ≤ (get_mention_counts exDetector3 "AMC" exNow 60).length := by
    rw [exCounts3]
    norm_num
  have hall : ∀ x ∈ get_mention_counts exDetector3 "AMC" exNow 60, x = 1 := by
    rw [exCounts3]
    decide
  exact ⟨h2, hall, spec_C3_zero_variance exDetector3 "AMC" 999 exNow 60 1 h2 hall⟩

/-- Witness for C4: the detector flags `"GME"` at count 20, whose Z-score 18
exceeds the threshold 2.5. -/
theorem spec_C4_witness : (is_anomalyS exDetector "GME" 20 exNow 60).1 :=
  (spec_C4_threshold_inclusive exDetector "GME" 20 exNow 60).1.mpr (by
    rw [exZ, exThreshold, abs_of_pos (by norm_num : (0:ℝ) < 18)]
    norm_num)

/-- Witness for C5 (scenario D): after a mention at the epoch and one 25
hours later, the retained entry `(t₂, 1)` satisfies the pruning bound for
the last inserted timestamp `t₂`. -/
theorem spec_C5_witness :
    ((90000000000000 : ℕ) : ℤ) - ((d0.window_hours * usecPerHour : ℕ) : ℤ)
      ≤ (((90000000000000 : ℕ), (1 : ℕ)).1 : ℤ) :=
  spec_C5_pruning_invariant d0 exCalls "XXX" ("XXX", 90000000000000) (by rfl)
    (90000000000000, 1) (by decide)

/-- Witness for C6: the single entry produced for `"GME"` comes from the key
`("GME", 20)` of the input mapping, and its `is_anomaly` condition holds. -/
theorem spec_C6_witness :
    ∃ c : ℤ, (("GME" : String), c) ∈ [(("GME" : String), (20 : ℤ))] ∧
      (is_anomalyS exDetector "GME" c exNow 60).1 :=
  spec_C6_filtering exDetector [("GME", 20)] exNow 60 "GME"
    (mkInfo exDetector "GME" 20 exNow 60)
    (by rw [exDetect]; exact List.mem_singleton_self _)

/-- Witness for C7 at the concrete entry for `"GME"` (Z-score 18). -/
theorem spec_C7_witness :
    (0 < (mkInfo exDetector "GME" 20 exNow 60).z_score →
      (mkInfo exDetector "GME" 20 exNow 60).direction = "surge") ∧
    ((mkInfo exDetector "GME" 20 exNow 60).z_score < 0 →
      (mkInfo exDetector "GME" 20 exNow 60).direction = "drop") ∧
    ((mkInfo exDetector "GME" 20 exNow 60).z_score = 0 →
      (exDetector.z_threshold : ℝ) ≤ 0) :=
  spec_C7_direction_sign exDetector [("GME", 20)] exNow 60 "GME"
    (mkInfo exDetector "GME" 20 exNow 60)
    (by rw [exDetect]; exact List.mem_singleton_self _)

/-- Witness for C10: querying the unknown ticker `"ZZZ"` returns `[]`. -/
theorem spec_C10_witness : (get_mention_countsS exDetector "ZZZ" exNow 60).1 = [] :=
  (spec_C10_reads_do_not_create_keys exDetector "ZZZ" 1 [] exNow 60).1 rfl
